import Mathlib

/-!
Verification development for the `amduat_scraper` repository
(`src/theban_scraper.py` and `src/amduat_scraper.py`).

The two scripts are near-duplicates.  We shallowly embed the pure logic of
the classifier and the orchestration loops: strings are Lean `String`s over
`Char` lists, the HTML DOM collaborator (BeautifulSoup) is modelled at the
interface level the code actually uses (attribute lookup, parent chains,
visible text), the regex collaborator `re.findall` is modelled as an abstract
function argument where only the iteration structure matters, and the two
regexes the code applies to image sources (`/styles/[^/]+/public/(.+)` and
the substring / prefix searches) are implemented concretely, following
Python's leftmost-match greedy semantics for these particular patterns.
-/

namespace AmduatScraper

/-- ASCII lowercase of a character, as Python `str.lower` acts on ASCII. -/
def chLower (c : Char) : Char := c.toLower

/-- ASCII lowercase of a string (model of Python `str.lower()`). -/
def strLower (s : String) : String := String.mk (s.toList.map chLower)

/-- Python `needle in hay` substring test. -/
def containsSub (needle hay : String) : Bool :=
  hay.toList.tails.any (fun t => needle.toList.isPrefixOf t)

/-- Python truthiness of an optional string (`None` and `""` are falsy). -/
def truthy : Option String → Bool
  | none => false
  | some s => !(s == "")

/-- Python truthiness of an optional section number (`None` and `0` falsy). -/
def truthySec : Option Nat → Bool
  | none => false
  | some v => !(v == 0)

/-- Lookup in a string-keyed mapping (Python dict membership + access). -/
def lookupStr (m : List (String × Nat)) (k : String) : Option Nat :=
  (m.find? (fun kv => kv.1 == k)).map (fun kv => kv.2)

/-- Lookup in a nat-keyed mapping (Python dict membership + access). -/
def lookupNat (m : List (Nat × String)) (k : Nat) : Option String :=
  (m.find? (fun kv => kv.1 == k)).map (fun kv => kv.2)

/-- One funerary-text configuration (entries of `FUNERARY_TEXT_CONFIGS`). -/
structure TextConfig where
  name : String
  keywords : List String
  patterns : List String
  sections : List (Nat × String)
  sectionMapping : List (String × Nat)

/-- The `amduat` entry of `FUNERARY_TEXT_CONFIGS` in `theban_scraper.py`
(also the hard-coded tables of `amduat_scraper.py`). -/
def amduatConfig : TextConfig where
  name := "Amduat"
  keywords := ["amduat", "imydwat"]
  patterns :=
    [ "imydwat[,\\s]*(\\w+)\\s+hour"
    , "amduat[,\\s]*(\\w+)\\s+hour"
    , "(\\w+)\\s+hour\\s+of\\s+(?:the\\s+)?(?:imydwat|amduat)"
    , "hour\\s+(\\d+)[,\\s]*(?:imydwat|amduat)" ]
  sections :=
    [ (1, "prima_ora"), (2, "seconda_ora"), (3, "terza_ora"), (4, "quarta_ora")
    , (5, "quinta_ora"), (6, "sesta_ora"), (7, "settima_ora"), (8, "ottava_ora")
    , (9, "nona_ora"), (10, "decima_ora"), (11, "undicesima_ora"), (12, "dodicesima_ora") ]
  sectionMapping :=
    [ ("first", 1), ("second", 2), ("third", 3), ("fourth", 4), ("fifth", 5), ("sixth", 6)
    , ("seventh", 7), ("eighth", 8), ("ninth", 9), ("tenth", 10), ("eleventh", 11), ("twelfth", 12)
    , ("1", 1), ("2", 2), ("3", 3), ("4", 4), ("5", 5), ("6", 6)
    , ("7", 7), ("8", 8), ("9", 9), ("10", 10), ("11", 11), ("12", 12) ]

/-- The `caverns` entry of `FUNERARY_TEXT_CONFIGS` in `theban_scraper.py`. -/
def cavernsConfig : TextConfig where
  name := "Book of Caverns"
  keywords := ["caverns", "book of caverns"]
  patterns :=
    [ "(?:book\\s+of\\s+)?caverns[,\\s]*(\\w+)\\s+(?:section|part|division)"
    , "(\\w+)\\s+(?:section|part|division)\\s+of\\s+(?:the\\s+)?(?:book\\s+of\\s+)?caverns"
    , "(?:section|part|division)\\s+(\\d+)[,\\s]*(?:book\\s+of\\s+)?caverns" ]
  sections :=
    [ (1, "prima_sezione"), (2, "seconda_sezione"), (3, "terza_sezione")
    , (4, "quarta_sezione"), (5, "quinta_sezione"), (6, "sesta_sezione") ]
  sectionMapping :=
    [ ("first", 1), ("second", 2), ("third", 3), ("fourth", 4), ("fifth", 5), ("sixth", 6)
    , ("1", 1), ("2", 2), ("3", 3), ("4", 4), ("5", 5), ("6", 6) ]

/-! ## Filename sanitization (`sanitize_filename`, theban_scraper.py lines 84-92) -/

/-- The character class `[<>:"/\\|?*]` of the first `re.sub`. -/
def invalidFileChar (c : Char) : Bool :=
  c == '<' || c == '>' || c == ':' || c == '"' || c == '/' ||
  c == '\\' || c == '|' || c == '?' || c == '*'

/-- Python regex `\s` on the ASCII range: space, tab, newline, carriage
return, vertical tab, form feed. -/
def pySpace (c : Char) : Bool :=
  c == ' ' || c == '\t' || c == '\n' || c == '\r' ||
  c == Char.ofNat 11 || c == Char.ofNat 12

/-- `re.sub(p+, r, text)`: replace every maximal run of characters
satisfying `p` by the single character `r`.  The boolean tracks whether we
are inside a run that has already emitted its replacement. -/
def collapseAux (p : Char → Bool) (r : Char) : Bool → List Char → List Char
  | _, [] => []
  | inRun, c :: rest =>
    if p c then
      if inRun then collapseAux p r true rest
      else r :: collapseAux p r true rest
    else c :: collapseAux p r false rest

/-- Replace maximal runs of `p`-characters by `r` (model of `re.sub`). -/
def collapseRuns (p : Char → Bool) (r : Char) (l : List Char) : List Char :=
  collapseAux p r false l

/-- Drop trailing characters satisfying `p` (for Python `str.strip`). -/
def dropEndWhile (p : Char → Bool) : List Char → List Char
  | [] => []
  | c :: rest =>
    if (dropEndWhile p rest).isEmpty && p c then []
    else c :: dropEndWhile p rest

/-- Python `str.strip(chars)`: drop `p`-characters from both ends. -/
def stripChars (p : Char → Bool) (l : List Char) : List Char :=
  dropEndWhile p (l.dropWhile p)

/-- Lines 86-89 of `sanitize_filename`: replace the unsafe characters by
underscores, collapse whitespace runs and underscore runs to single
underscores, and strip underscores from both ends. -/
def sanitizeCore (l : List Char) : List Char :=
  stripChars (fun c => c == '_')
    (collapseRuns (fun c => c == '_') '_'
      (collapseRuns pySpace '_'
        (l.map (fun c => if invalidFileChar c then '_' else c))))

/-- Lines 90-91: truncate to `max_length = 100` characters. -/
def sanitizeTrunc (l : List Char) : List Char :=
  if l.length > 100 then l.take 100 else l

/-- `sanitize_filename` (theban_scraper.py lines 84-92), `max_length = 100`:
replace filesystem-unsafe characters by underscores, collapse whitespace
runs and underscore runs, strip underscores, truncate, and fall back to
`"unnamed"` when nothing is left. -/
def sanitizeFilename (text : String) : String :=
  if (sanitizeTrunc (sanitizeCore text.toList)).isEmpty then "unnamed"
  else String.mk (sanitizeTrunc (sanitizeCore text.toList))

/-- No two adjacent underscores (the "no run of more than one underscore"
property of a sanitized filename). -/
def noDoubleUS : List Char → Bool
  | [] => true
  | [_] => true
  | c1 :: c2 :: rest => !(c1 == '_' && c2 == '_') && noDoubleUS (c2 :: rest)

/-! ## Image-source normalization (`/styles/[^/]+/public/(.+)` rewrite) -/

/-- Strip an expected literal from the front of a character list. -/
def stripPref : List Char → List Char → Option (List Char)
  | [], s => some s
  | _ :: _, [] => none
  | p :: ps, c :: cs => if p == c then stripPref ps cs else none

/-- Try to match `/styles/[^/]+/public/(.+)` at the start of `s`, returning
the captured group.  For this pattern, Python's greedy backtracking search
at a fixed position coincides with: maximal nonempty run of non-`'/'`
characters for `[^/]+` (backtracking always fails because the next literal
starts with `'/'`), then the literal `/public/`, then a maximal nonempty
run of non-newline characters for `(.+)` (`.` does not match `'\n'`). -/
def matchStylesAt (s : List Char) : Option (List Char) :=
  match stripPref "/styles/".toList s with
  | none => none
  | some r1 =>
    if (r1.takeWhile (fun c => !(c == '/'))).isEmpty then none
    else
      match stripPref "/public/".toList (r1.dropWhile (fun c => !(c == '/'))) with
      | none => none
      | some r2 =>
        if (r2.takeWhile (fun c => !(c == '\n'))).isEmpty then none
        else some (r2.takeWhile (fun c => !(c == '\n')))

/-- `re.search(r"/styles/[^/]+/public/(.+)", s)`: leftmost position where
the pattern matches, returning `group(1)`. -/
def stylesSearch : List Char → Option (List Char)
  | [] => none
  | c :: rest =>
    match matchStylesAt (c :: rest) with
    | some g => some g
    | none => stylesSearch rest

/-- Lines 156-159 of `theban_scraper.py` (95-98 of `amduat_scraper.py`):
if the source contains `/styles/` and the variant pattern matches, rewrite
to the canonical `/sites/default/files/` form. -/
def rewriteSrc (src : String) : String :=
  if containsSub "/styles/" src then
    match stylesSearch src.toList with
    | some g => String.mk ("/sites/default/files/".toList ++ g)
    | none => src
  else src

/-- The scraper's fixed base URL. -/
def baseUrl : String := "https://thebanmappingproject.com"

/-- Modelled from the spec: the URL-resolution collaborator
(`urllib.parse.urljoin` against the fixed base URL), restricted to the
reference shapes the scraper produces: an already-absolute URL is kept, a
scheme-relative or root-relative reference is attached to the base. -/
def urljoinTMP (src : String) : String :=
  if containsSub "://" src then src
  else if "//".toList.isPrefixOf src.toList then "https:" ++ src
  else if "/".toList.isPrefixOf src.toList then baseUrl ++ src
  else baseUrl ++ "/" ++ src

/-! ## DOM model

BeautifulSoup is an external collaborator; we model exactly the interface
the classifier uses: attribute lookup (`.get`), the parent chain
(`.parent`, three levels), and visible text (`get_text()` and
`get_text(strip=True)`), the latter two as independent page data since
their values are produced by the parser. -/

/-- One ancestor element: its `get_text()` and `get_text(strip=True)`. -/
structure Ancestor where
  text : String
  textStrip : String

/-- A parsed `<img>` tag: its attributes and its ancestor chain
(nearest first). -/
structure Node where
  attrs : List (String × String)
  ancestors : List Ancestor

/-- An element of the `images` list built at lines 141-146 of
`theban_scraper.py` (80-85 of `amduat_scraper.py`): either a real parsed
tag from `soup.find_all` or the plain dict literal the code appends for a
lazy-load element, which carries only the key `src`. -/
inductive ImgEntry
  | node : Node → ImgEntry
  | srcDict : String → ImgEntry

/-- Python `.get(key)`: on a tag, attribute lookup; on the appended dict,
only the key `src` is present. -/
def ImgEntry.getAttr : ImgEntry → String → Option String
  | .node n, k => (n.attrs.find? (fun kv => kv.1 == k)).map (fun kv => kv.2)
  | .srcDict s, k => if k == "src" then some s else none

/-- Python `.parent` chain access: a tag yields its ancestor chain; the
plain dict has no `parent` attribute, so the interpreter raises
`AttributeError` (modelled as `Except.error`). -/
def ImgEntry.parentChain : ImgEntry → Except String (List Ancestor)
  | .node n => .ok n.ancestors
  | .srcDict _ => .error "AttributeError: the appended dict has no parent attribute"

/-- One fetched tomb page: the tomb name derived by `extract_tomb_name`
(title, then first heading, then URL slug, then the Unknown sentinel; its
derivation is not the subject of any claim, so the derived value is page
data here), the parsed `<img>` tags, and the `data-src` attribute values of
the elements found by `soup.find_all(attrs=...)`. -/
structure Page where
  tombName : String
  imgs : List Node
  dataSrcVals : List String

/-- Lines 141-146: `soup.find_all('img')` followed by appending
`{'src': src}` for every element with a truthy `data-src`. -/
def imageEntries (p : Page) : List ImgEntry :=
  p.imgs.map ImgEntry.node ++
    (p.dataSrcVals.filter (fun s => !(s == ""))).map ImgEntry.srcDict

/-! ## Per-image classification -/

/-- Line 149: `img_src = img.get('src') or img.get('data-src')`, with the
line-150 truthiness guard folded in: `none` means the image is skipped. -/
def effectiveSrc (e : ImgEntry) : Option String :=
  let a := e.getAttr "src"
  let s := if truthy a then a else e.getAttr "data-src"
  if truthy s then s else none

/-- Line 153: the fixed denylist of source substrings. -/
def denylist : List String := ["logo", "icon", "compass", "hieroglyph"]

/-- Line 153: `any(skip in img_src.lower() for skip in [...])`. -/
def denylisted (src : String) : Bool :=
  denylist.any (fun skip => containsSub skip (strLower src))

/-- Lines 163-176: build the lowercased context string (alt text plus up to
three ancestors' text) and retain the first ancestor text with nonempty
stripped form for caption derivation (`context_text` is only replaced while
it is falsy). -/
def buildContext (alt? : Option String) (chain : List Ancestor) : String × String :=
  let base := if truthy alt? then strLower (alt?.getD "") else ""
  let anc := chain.take 3
  let ctx := anc.foldl (fun acc a => acc ++ " " ++ strLower a.text) base
  let ctext :=
    match anc.find? (fun a => !(a.textStrip == "")) with
    | some a => a.textStrip
    | none => ""
  (ctx, ctext)

/-- The regex collaborator: `re.findall pattern text` returning the list of
captured groups (each configured pattern has exactly one group). -/
abbrev Findall : Type := String → String → List String

/-- Lines 182-185: the first match in `re.findall`'s output whose lowercase
form is a key of the section mapping, and its mapped value. -/
def firstMapped (mapping : List (String × Nat)) (groups : List String) : Option Nat :=
  match groups.find? (fun g => (lookupStr mapping (strLower g)).isSome) with
  | some g => lookupStr mapping (strLower g)
  | none => none

/-- Lines 179-203 (113-121 of `amduat_scraper.py`): the pattern loop.  The
accumulator is `section_found`; a pattern with a mapped match overwrites
it, and the loop stops as soon as the accumulator is truthy (Python
truthiness: `None` and `0` are falsy). -/
def findSectionAux (mapping : List (String × Nat)) (fa : Findall) (ctx : String) :
    List String → Option Nat → Option Nat
  | [], acc => acc
  | p :: ps, acc =>
    let acc2 :=
      match firstMapped mapping (fa p ctx) with
      | some v => some v
      | none => acc
    if truthySec acc2 then acc2 else findSectionAux mapping fa ctx ps acc2

/-- The pattern loop started with `section_found = None`. -/
def findSection (mapping : List (String × Nat)) (fa : Findall) (ctx : String)
    (patterns : List String) : Option Nat :=
  findSectionAux mapping fa ctx patterns none

/-- `re.split` on a single-character class: cut at every delimiter,
keeping empty segments. -/
def splitChars (p : Char → Bool) : List Char → List (List Char)
  | [] => [[]]
  | c :: rest =>
    if p c then [] :: splitChars p rest
    else
      match splitChars p rest with
      | [] => [[c]]
      | w :: ws => (c :: w) :: ws

/-- Line 187: `re.split(r'[.;!?\n]', context_text)`. -/
def sentenceSplit (s : String) : List String :=
  (splitChars (fun c => c == '.' || c == ';' || c == '!' || c == '?' || c == '\n') s.toList).map
    String.mk

/-- Python `str.strip()` (whitespace from both ends). -/
def pyStrip (s : String) : String := String.mk (stripChars pySpace s.toList)

/-- Python `str.split()` (split on whitespace runs, no empty words). -/
def pySplitWs (s : String) : List String :=
  ((splitChars pySpace s.toList).filter (fun w => !w.isEmpty)).map String.mk

/-- Lines 188-191: does the sentence contain any configured keyword
(case-insensitively)? -/
def keywordIn (keywords : List String) (s : String) : Bool :=
  keywords.any (fun k => containsSub k (strLower s))

/-- Lines 193-200: the fallback window of words (5 before to 10 after)
centred on the first word containing a keyword substring. -/
def wordWindow (keywords : List String) (contextText : String) : String :=
  let words := pySplitWs contextText
  match words.findIdx? (fun w => keywordIn keywords w) with
  | some i =>
    String.intercalate " " ((words.drop (i - 5)).take (min words.length (i + 10) - (i - 5)))
  | none => ""

/-- Lines 186-200: `matching_text` — the first keyword-bearing sentence
(stripped), else the word window, else empty. -/
def extractCaption (keywords : List String) (contextText : String) : String :=
  let mt :=
    match (sentenceSplit contextText).find? (fun sent => keywordIn keywords sent) with
    | some sent => pyStrip sent
    | none => ""
  if mt == "" then wordWindow keywords contextText else mt

/-- Line 210: `matching_text or img.get('alt') or img.get('title') or ""`. -/
def firstTruthyStr : List (Option String) → String
  | [] => ""
  | o :: rest => if truthy o then o.getD "" else firstTruthyStr rest

/-- Lines 148-211 of `theban_scraper.py`, one iteration of the image loop:
either the classification outcome for this image (`none` = skipped /
unclassified) or the uncaught Python exception. -/
def processImg (cfg : TextConfig) (fa : Findall) (e : ImgEntry) :
    Except String (Option (Nat × String × String)) :=
  match effectiveSrc e with
  | none => .ok none
  | some rawSrc =>
    if denylisted rawSrc then .ok none
    else
      match e.parentChain with
      | .error err => .error err
      | .ok chain =>
        match findSection cfg.sectionMapping fa
            (buildContext (e.getAttr "alt") chain).1 cfg.patterns with
        | none => .ok none
        | some sv =>
          if !(sv == 0) && (lookupNat cfg.sections sv).isSome then
            .ok (some (sv, urljoinTMP (rewriteSrc rawSrc),
              firstTruthyStr
                [ some (extractCaption cfg.keywords (buildContext (e.getAttr "alt") chain).2)
                , e.getAttr "alt", e.getAttr "title" ]))
          else .ok none

/-! ## Per-page accumulation and the scrape run -/

/-- One recorded detection: resolved URL, caption, tomb name. -/
abbrev Entry : Type := String × String × String

/-- A per-page bucket: `images_by_section`. -/
abbrev Bucket : Type := List (Nat × List Entry)

/-- Line 122: `{i: [] for i in sections.keys()}`. -/
def initBucket (cfg : TextConfig) : Bucket :=
  cfg.sections.map (fun kv => (kv.1, []))

/-- Lines 207-211: append the detection to the section's list unless the
URL is already recorded there on this page. -/
def bucketAdd (b : Bucket) (s : Nat) (url caption tomb : String) : Bucket :=
  b.map (fun kv =>
    if kv.1 == s then
      (kv.1,
        if kv.2.any (fun e => e.1 == url) then kv.2
        else kv.2 ++ [(url, caption, tomb)])
    else kv)

/-- The image loop of `extract_funerary_text_images`: fold `processImg`
over the image list, propagating an uncaught exception. -/
def extractLoop (cfg : TextConfig) (fa : Findall) (tomb : String) :
    List ImgEntry → Bucket → Except String Bucket
  | [], b => .ok b
  | e :: es, b =>
    match processImg cfg fa e with
    | .error err => .error err
    | .ok none => extractLoop cfg fa tomb es b
    | .ok (some (s, url, caption)) =>
      extractLoop cfg fa tomb es (bucketAdd b s url caption tomb)

/-- The post-fetch body of `extract_funerary_text_images` on a parsed page. -/
def extractImages (cfg : TextConfig) (fa : Findall) (p : Page) : Except String Bucket :=
  extractLoop cfg fa p.tombName (imageEntries p) (initBucket cfg)

/-- Lines 124-129 + body: the spec's fetcher contract
`fetch(url) -> (statusCode, body) | transportError`.  The
`self.session.get(tomb_url)` call at line 125 is unguarded, so the
transport-error arm (a raised `requests` exception) propagates out of
`extract_funerary_text_images`; a response with a non-200 status returns
the freshly initialized (empty) bucket; otherwise the page is classified. -/
def extractTombImages (cfg : TextConfig) (fa : Findall)
    (fetch : String → Except String (Nat × Page)) (url : String) : Except String Bucket :=
  match fetch url with
  | .error err => .error err
  | .ok r => if r.1 == 200 then extractImages cfg fa r.2 else .ok (initBucket cfg)

/-- The run-wide bucket `all_images`: section number to recorded entries,
in insertion order (Python dicts preserve insertion order). -/
abbrev GBucket : Type := List (Nat × List Entry)

/-- Line 255: `{i: {} for i in sections.keys()}`. -/
def initG (cfg : TextConfig) : GBucket :=
  cfg.sections.map (fun kv => (kv.1, []))

/-- Lines 262-263: record the detection unless its URL is already a key of
that section's dict (first-seen caption and tomb name win). -/
def addDet (l : List Entry) (e : Entry) : List Entry :=
  if l.any (fun x => x.1 == e.1) then l else l ++ [e]

/-- Update the run-wide bucket at one section key. -/
def gAdd (g : GBucket) (s : Nat) (e : Entry) : GBucket :=
  g.map (fun kv => if kv.1 == s then (kv.1, addDet kv.2 e) else kv)

/-- Lines 260-263: merge one page's bucket into the run-wide bucket. -/
def mergeBucket (g : GBucket) (pb : Bucket) : GBucket :=
  pb.foldl (fun a kv => kv.2.foldl (fun a2 e => gAdd a2 kv.1 e) a) g

/-- The tomb loop of `scrape_all_tombs` (lines 257-266, politeness delay
elided): classify each tomb page in order and merge the results; an
uncaught exception aborts the whole run. -/
def scrapeLoop (cfg : TextConfig) (fa : Findall)
    (fetch : String → Except String (Nat × Page)) :
    List String → GBucket → Except String GBucket
  | [], g => .ok g
  | u :: us, g =>
    match extractTombImages cfg fa fetch u with
    | .error err => .error err
    | .ok pb => scrapeLoop cfg fa fetch us (mergeBucket g pb)

/-- `href` filter of `get_tombs_list`: `re.compile(r'/tombs/kv-\d+')`
searched inside the link target. -/
def hrefTomb (h : String) : Bool :=
  h.toList.tails.any (fun t =>
    "/tombs/kv-".toList.isPrefixOf t &&
      (match t.drop 10 with
       | c :: _ => c.isDigit
       | [] => false))

/-- `get_tombs_list` (lines 68-82): on a 200 listing page, the matching
link targets resolved against the base URL, first-appearance order,
duplicates removed; otherwise the empty list. -/
def getTombsList (listing : Nat × List String) : List String :=
  if listing.1 == 200 then
    (listing.2.filter hrefTomb).foldl
      (fun acc h =>
        let u := urljoinTMP h
        if acc.contains u then acc else acc ++ [u]) []
  else []

/-- Lines 268-304 (download phase): attempt each bucketed image in order,
counting successes; `download` is the collaborator verdict of
`download_image` for a URL. -/
def downloadPhase (download : String → Bool) (g : GBucket) : Nat :=
  g.foldl (fun tot kv =>
    kv.2.foldl (fun t e => if download e.1 then t + 1 else t) tot) 0

/-- `scrape_all_tombs` end to end (folder creation elided): list the tombs,
classify and merge each, download, and report the final summary line. -/
def scrapeRun (cfg : TextConfig) (fa : Findall) (listing : Nat × List String)
    (fetch : String → Except String (Nat × Page)) (download : String → Bool) :
    Except String (Nat × String) :=
  match scrapeLoop cfg fa fetch (getTombsList listing) (initG cfg) with
  | .error err => .error err
  | .ok g =>
    let total := downloadPhase download g
    .ok (total, "\nScraping complete! Downloaded " ++ toString total ++ " images")

/-! ## Helper lemmas -/

/-- A denylisted effective source is dismissed before any further
processing (the `continue` at line 154 precedes normalization, context
building and classification). -/
lemma processImg_denylisted_eq (cfg : TextConfig) (fa : Findall) (e : ImgEntry)
    (h : denylisted ((effectiveSrc e).getD "") = true) :
    processImg cfg fa e = .ok none := by
  cases he : effectiveSrc e with
  | none =>
    rw [he] at h
    simp only [Option.getD_none] at h
    exact absurd h (by decide)
  | some raw =>
    rw [he] at h
    simp only [Option.getD_some] at h
    simp only [processImg, he, h, if_pos]

/-- Folding the tomb-loop step over a bucket whose sections are all empty
changes nothing. -/
lemma foldl_gAdd_map_nil (l : List (Nat × String)) (g : GBucket) :
    (l.map (fun kv => (kv.1, ([] : List Entry)))).foldl
      (fun a kv => kv.2.foldl (fun a2 e => gAdd a2 kv.1 e) a) g = g := by
  induction l generalizing g with
  | nil => rfl
  | cons kv t ih => simpa using ih g

/-- Merging the freshly initialized (all-empty) per-page bucket is a no-op. -/
lemma mergeBucket_init (cfg : TextConfig) (g : GBucket) :
    mergeBucket g (initBucket cfg) = g :=
  foldl_gAdd_map_nil cfg.sections g

/-- A tomb-page fetch that completes with a non-200 status makes
`extract_funerary_text_images` return the freshly initialized bucket
(lines 127-129). -/
lemma extractTombImages_fail (cfg : TextConfig) (fa : Findall)
    (fetch : String → Except String (Nat × Page)) (u : String) (st : Nat) (pg : Page)
    (hf : fetch u = .ok (st, pg)) (h : st ≠ 200) :
    extractTombImages cfg fa fetch u = .ok (initBucket cfg) := by
  unfold extractTombImages
  rw [hf]
  simp [h]

/-- The download phase of an all-empty run-wide bucket counts zero. -/
lemma downloadPhase_initG (download : String → Bool) (cfg : TextConfig) :
    downloadPhase download (initG cfg) = 0 := by
  unfold downloadPhase initG
  induction cfg.sections with
  | nil => rfl
  | cons kv t ih => simpa using ih

/-- A classified image's section number passed the `section_found in
sections` guard of line 206. -/
lemma processImg_some_section (cfg : TextConfig) (fa : Findall) (e : ImgEntry)
    (s : Nat) (url cap : String)
    (h : processImg cfg fa e = .ok (some (s, url, cap))) :
    (lookupNat cfg.sections s).isSome = true := by
  unfold processImg at h
  split at h
  · exact absurd h (by simp)
  · split at h
    · exact absurd h (by simp)
    · split at h
      · exact absurd h (by simp)
      · split at h
        · exact absurd h (by simp)
        · split at h
          · rename_i hguard
            simp only [Except.ok.injEq, Option.some.injEq, Prod.mk.injEq] at h
            obtain ⟨rfl, -, -⟩ := h
            exact (Bool.and_eq_true _ _ |>.mp hguard).2
          · exact absurd h (by simp)

/-- The per-page bucket invariant: any section with a recorded image is a
key of the configured sections mapping. -/
def bucketOK (cfg : TextConfig) (b : Bucket) : Bool :=
  b.all (fun kv => kv.2.isEmpty || (lookupNat cfg.sections kv.1).isSome)

lemma initBucket_OK (cfg : TextConfig) : bucketOK cfg (initBucket cfg) = true := by
  unfold bucketOK initBucket
  rw [List.all_eq_true]
  intro kv hkv
  rw [List.mem_map] at hkv
  obtain ⟨kv0, -, rfl⟩ := hkv
  simp

lemma bucketAdd_OK (cfg : TextConfig) (b : Bucket) (s : Nat) (url cap tomb : String)
    (hs : (lookupNat cfg.sections s).isSome = true)
    (hb : bucketOK cfg b = true) :
    bucketOK cfg (bucketAdd b s url cap tomb) = true := by
  unfold bucketOK bucketAdd at *
  rw [List.all_eq_true] at *
  intro kv hkv
  rw [List.mem_map] at hkv
  obtain ⟨kv0, hkv0, rfl⟩ := hkv
  by_cases hk : (kv0.1 == s) = true
  · rw [beq_iff_eq] at hk
    simp only [hk, beq_self_eq_true, if_pos, hs]
    simp
  · simp only [Bool.not_eq_true] at hk
    simp only [hk, Bool.false_eq_true, if_neg, not_false_iff]
    exact hb kv0 hkv0

lemma extractLoop_OK (cfg : TextConfig) (fa : Findall) (tomb : String) :
    ∀ (es : List ImgEntry) (b b2 : Bucket),
      extractLoop cfg fa tomb es b = .ok b2 → bucketOK cfg b = true →
      bucketOK cfg b2 = true := by
  intro es
  induction es with
  | nil =>
    intro b b2 h hb
    simp only [extractLoop, Except.ok.injEq] at h
    exact h ▸ hb
  | cons e es ih =>
    intro b b2 h hb
    simp only [extractLoop] at h
    cases hp : processImg cfg fa e with
    | error err => rw [hp] at h; cases h
    | ok o =>
      rw [hp] at h
      cases o with
      | none => exact ih _ _ h hb
      | some trip =>
        obtain ⟨s, url, cap⟩ := trip
        exact ih _ _ h
          (bucketAdd_OK cfg b s url cap tomb (processImg_some_section cfg fa e s url cap hp) hb)

/-- When the first mapped group exists, its value is nonzero provided all
mapping values are nonzero. -/
lemma firstMapped_ne_zero (mapping : List (String × Nat)) (groups : List String)
    (hvals : ∀ kv ∈ mapping, kv.2 ≠ 0) (v : Nat)
    (h : firstMapped mapping groups = some v) : v ≠ 0 := by
  unfold firstMapped at h
  cases hf : groups.find? (fun g => (lookupStr mapping (strLower g)).isSome) with
  | none => rw [hf] at h; simp at h
  | some g =>
    rw [hf] at h
    dsimp only at h
    unfold lookupStr at h
    cases hm : mapping.find? (fun kv => kv.1 == strLower g) with
    | none => rw [hm] at h; simp at h
    | some kv =>
      rw [hm] at h
      simp at h
      exact h ▸ hvals kv (List.mem_of_find?_eq_some hm)

/-- A pattern without a mapped group leaves `section_found = None` and the
loop moves on to the next pattern. -/
lemma findSectionAux_skip (mapping : List (String × Nat)) (fa : Findall) (ctx : String)
    (q : String) (ps : List String)
    (hq : firstMapped mapping (fa q ctx) = none) :
    findSectionAux mapping fa ctx (q :: ps) none = findSectionAux mapping fa ctx ps none := by
  simp [findSectionAux, hq, truthySec]

/-- A pattern whose first mapped group has nonzero value ends the loop
immediately, whatever the accumulator held. -/
lemma findSectionAux_hit (mapping : List (String × Nat)) (fa : Findall) (ctx : String)
    (p : String) (ps : List String) (v : Nat)
    (hp : firstMapped mapping (fa p ctx) = some v) (hv : v ≠ 0) (acc : Option Nat) :
    findSectionAux mapping fa ctx (p :: ps) acc = some v := by
  simp [findSectionAux, hp, truthySec, hv]

/-- The pattern loop returns the first mapped group of the first pattern
that has one, never consulting later patterns. -/
lemma findSection_first_hit (mapping : List (String × Nat)) (fa : Findall) (ctx : String)
    (ps1 : List String) (p : String) (ps2 : List String)
    (hvals : ∀ kv ∈ mapping, kv.2 ≠ 0)
    (h1 : ∀ q ∈ ps1, firstMapped mapping (fa q ctx) = none)
    (v : Nat) (h2 : firstMapped mapping (fa p ctx) = some v) :
    findSection mapping fa ctx (ps1 ++ p :: ps2) = some v := by
  unfold findSection
  induction ps1 with
  | nil =>
    exact findSectionAux_hit mapping fa ctx p ps2 v h2
      (firstMapped_ne_zero mapping (fa p ctx) hvals v h2) none
  | cons q ps1 ih =>
    rw [List.cons_append,
      findSectionAux_skip mapping fa ctx q _ (h1 q (List.mem_cons_self q ps1))]
    exact ih (fun r hr => h1 r (List.mem_cons_of_mem q hr))

/-- Decidable equality of exceptional results, for evaluating the model on
concrete inputs. -/
instance {ε α : Type} [DecidableEq ε] [DecidableEq α] : DecidableEq (Except ε α) :=
  fun a b =>
    match a, b with
    | .error x, .error y =>
      if h : x = y then .isTrue (by rw [h]) else .isFalse (by simp [h])
    | .ok x, .ok y =>
      if h : x = y then .isTrue (by rw [h]) else .isFalse (by simp [h])
    | .error _, .ok _ => .isFalse (by simp)
    | .ok _, .error _ => .isFalse (by simp)

/-! ## Concrete collaborators used by witnesses -/

/-- A regex collaborator that never finds a group. -/
def faNull : Findall := fun _ _ => []

/-- A regex collaborator for the fourth-hour scenario: only the first
configured Amduat pattern matches, in keyword-bearing contexts. -/
def faFourth : Findall := fun p ctx =>
  if p == "imydwat[,\\s]*(\\w+)\\s+hour" && containsSub "fourth hour" ctx then ["fourth"]
  else []

/-- A regex collaborator where only the second configured Amduat pattern
yields a mapped group. -/
def faSecondPat : Findall := fun p _ =>
  if p == "amduat[,\\s]*(\\w+)\\s+hour" then ["fourth"]
  else if p == "imydwat[,\\s]*(\\w+)\\s+hour" then []
  else ["unmapped"]

/-- A regex collaborator that pretends every pattern captured "third". -/
def faThird : Findall := fun _ _ => ["third"]

/-- A page with no images at all. -/
def pageEmpty : Page := { tombName := "Empty", imgs := [], dataSrcVals := [] }

/-- A fetcher for which every request completes with a 404 status. -/
def fetch404 : String → Except String (Nat × Page) := fun _ => .ok (404, pageEmpty)

/-- A fetcher that raises a transport error for one tomb page (the
`transportError` arm of the spec's fetcher contract) and completes with a
non-success status elsewhere. -/
def fetchConnErr : String → Except String (Nat × Page) := fun u =>
  if u == "https://thebanmappingproject.com/tombs/kv-2" then
    .error "requests.exceptions.ConnectionError"
  else .ok (404, pageEmpty)

/-- A download collaborator that always succeeds. -/
def downloadTrue : String → Bool := fun _ => true

/-- Scenario B of the spec: a compass-icon image whose alt text names an
hour. -/
def imgCompass : ImgEntry :=
  .node
    { attrs :=
        [ ("src", "https://thebanmappingproject.com/images/compass-icon.png")
        , ("alt", "Amduat, third hour") ]
    , ancestors := [] }

/-- An image whose raw source is denylisted only inside the variant path
segment. -/
def imgStylesIcon : ImgEntry :=
  .node
    { attrs :=
        [ ("src", "/styles/icon/public/foo.jpg")
        , ("alt", "Amduat, fourth hour") ]
    , ancestors := [] }

/-- Scenario A of the spec: a fourth-hour Imydwat image. -/
def pageKV9 : Page :=
  { tombName := "KV9"
  , imgs :=
      [ { attrs :=
            [ ("src", "/sites/default/files/kv9/fig1.jpg")
            , ("alt", "Imydwat, fourth hour guardians") ]
        , ancestors := [] } ]
  , dataSrcVals := [] }

/-- A page whose only image is a lazy-load element with a clean source. -/
def pageDataSrc : Page :=
  { tombName := "KV9"
  , imgs := []
  , dataSrcVals := ["/sites/default/files/amduat_hour4.jpg"] }

/-! ## Claims -/

/-- Claim C1: for every image context string, the section number the
classifier assigns is determined by the first pattern, in the configured
pattern order, that yields at least one captured group whose lowercased
value is a key of the configured ordinal/numeral mapping; once such a
pattern resolves, no later pattern is consulted for that image (the result
does not depend on the patterns after it). -/
theorem pattern_priority_c1 (cfg : TextConfig) (fa : Findall) (ctx : String)
    (ps1 : List String) (p : String) (ps2 : List String)
    (hcfg : cfg = amduatConfig ∨ cfg = cavernsConfig)
    (hpat : cfg.patterns = ps1 ++ p :: ps2)
    (h1 : ∀ q ∈ ps1, firstMapped cfg.sectionMapping (fa q ctx) = none)
    (h2 : (firstMapped cfg.sectionMapping (fa p ctx)).isSome = true) :
    findSection cfg.sectionMapping fa ctx cfg.patterns =
      firstMapped cfg.sectionMapping (fa p ctx)
    ∧ ∀ ps2b : List String,
        findSection cfg.sectionMapping fa ctx (ps1 ++ p :: ps2b) =
          firstMapped cfg.sectionMapping (fa p ctx) := by
  obtain ⟨v, hv⟩ := Option.isSome_iff_exists.mp h2
  have hvals : ∀ kv ∈ cfg.sectionMapping, kv.2 ≠ 0 := by
    rcases hcfg with rfl | rfl <;> decide
  refine ⟨?_, fun ps2b => ?_⟩
  · rw [hpat, hv]
    exact findSection_first_hit _ fa ctx ps1 p ps2 hvals h1 v hv
  · rw [hv]
    exact findSection_first_hit _ fa ctx ps1 p ps2b hvals h1 v hv

theorem pattern_priority_c1_witness :
    findSection amduatConfig.sectionMapping faSecondPat "ctx" amduatConfig.patterns =
      firstMapped amduatConfig.sectionMapping
        (faSecondPat "amduat[,\\s]*(\\w+)\\s+hour" "ctx")
    ∧ findSection amduatConfig.sectionMapping faSecondPat "ctx"
        (["imydwat[,\\s]*(\\w+)\\s+hour"] ++ "amduat[,\\s]*(\\w+)\\s+hour" :: []) =
      firstMapped amduatConfig.sectionMapping
        (faSecondPat "amduat[,\\s]*(\\w+)\\s+hour" "ctx") := by
  have h := pattern_priority_c1 amduatConfig faSecondPat "ctx"
    ["imydwat[,\\s]*(\\w+)\\s+hour"] "amduat[,\\s]*(\\w+)\\s+hour"
    ["(\\w+)\\s+hour\\s+of\\s+(?:the\\s+)?(?:imydwat|amduat)",
     "hour\\s+(\\d+)[,\\s]*(?:imydwat|amduat)"]
    (Or.inl rfl) rfl (by decide) (by decide)
  exact ⟨h.1, h.2 []⟩

/-- Claim C2 (code bug): the code intends to process lazy-load (`data-src`)
elements like `<img>` elements, but it appends a plain dict `{'src': src}`
to the image list; on any such element whose source is not denylisted the
loop reaches `img.parent`, which raises `AttributeError` on a dict, so
classification of such a page raises instead of completing.  Evaluated at
the failing input: one lazy-load element with a clean source. -/
theorem data_src_attribute_error_c2 (fa : Findall) :
    extractImages amduatConfig fa pageDataSrc =
      .error "AttributeError: the appended dict has no parent attribute"
    ∧ denylisted "/sites/default/files/amduat_hour4.jpg" = false := by
  exact ⟨rfl, by decide⟩

/-- Claim C3: an image whose effective source string contains a denylisted
substring (case-insensitively) is never assigned to any section, whatever
the regex collaborator would report about its context. -/
theorem denylist_never_classified_c3 (cfg : TextConfig) (fa : Findall) (e : ImgEntry)
    (h : denylisted ((effectiveSrc e).getD "") = true) :
    processImg cfg fa e = .ok none :=
  processImg_denylisted_eq cfg fa e h

theorem denylist_never_classified_c3_witness :
    denylisted ((effectiveSrc imgCompass).getD "") = true
    ∧ processImg amduatConfig faThird imgCompass = .ok none :=
  ⟨by decide, denylist_never_classified_c3 amduatConfig faThird imgCompass (by decide)⟩

/-- Claim C4 counterexample: the claim as stated is false on the code.  The
spec's fetcher contract is `fetch(url) -> (statusCode, body) |
transportError`, and `self.session.get(tomb_url)` at line 125 is not
guarded by any try/except, so a transport error raised while fetching one
tomb page (here the middle tomb of three) propagates and aborts the whole
scrape instead of skipping that tomb: the run with the failing tomb ends
in the uncaught exception, while the same run without it completes. -/
theorem tomb_fetch_failure_skipped_c4_counterexample :
    scrapeLoop amduatConfig faNull fetchConnErr
        [ "https://thebanmappingproject.com/tombs/kv-1"
        , "https://thebanmappingproject.com/tombs/kv-2"
        , "https://thebanmappingproject.com/tombs/kv-3" ]
        (initG amduatConfig) =
      .error "requests.exceptions.ConnectionError"
    ∧ scrapeLoop amduatConfig faNull fetchConnErr
        [ "https://thebanmappingproject.com/tombs/kv-1"
        , "https://thebanmappingproject.com/tombs/kv-3" ]
        (initG amduatConfig) =
      .ok (initG amduatConfig) := by
  constructor
  · decide
  · decide

/-- Claim C4 (amended): a tomb-page fetch that completes with a non-success
status causes only that tomb to be skipped and the run to continue with
the remaining tombs — the scrape of the full list equals the scrape of the
list without that tomb; a transport error raised by the fetch itself,
however, propagates uncaught and aborts the overall run (see the
counterexample). -/
theorem tomb_fetch_failure_skipped_c4 (cfg : TextConfig) (fa : Findall)
    (fetch : String → Except String (Nat × Page)) (ts1 : List String) (t : String)
    (ts2 : List String) (g : GBucket) (st : Nat) (pg : Page)
    (hf : fetch t = .ok (st, pg)) (h : st ≠ 200) :
    scrapeLoop cfg fa fetch (ts1 ++ t :: ts2) g = scrapeLoop cfg fa fetch (ts1 ++ ts2) g := by
  induction ts1 generalizing g with
  | nil =>
    simp only [List.nil_append, scrapeLoop]
    rw [extractTombImages_fail cfg fa fetch t st pg hf h]
    dsimp only
    rw [mergeBucket_init]
  | cons a ts ih =>
    simp only [List.cons_append, scrapeLoop]
    cases extractTombImages cfg fa fetch a with
    | error err => rfl
    | ok pb => exact ih (mergeBucket g pb)

theorem tomb_fetch_failure_skipped_c4_witness :
    scrapeLoop amduatConfig faNull fetch404
        (["https://thebanmappingproject.com/tombs/kv-1"] ++
          "https://thebanmappingproject.com/tombs/kv-2" ::
            ["https://thebanmappingproject.com/tombs/kv-3"])
        (initG amduatConfig) =
      scrapeLoop amduatConfig faNull fetch404
        (["https://thebanmappingproject.com/tombs/kv-1"] ++
          ["https://thebanmappingproject.com/tombs/kv-3"])
        (initG amduatConfig) :=
  tomb_fetch_failure_skipped_c4 amduatConfig faNull fetch404 _ _ _ _ 404 pageEmpty rfl
    (by decide)

/-- Claim C8: every value of the ordinal/numeral mapping of each configured
text type is a key of that type's sections mapping, and every image the
classifier emits sits under a section number that is a key of the
configured sections mapping. -/
theorem config_consistency_c8 :
    ([amduatConfig, cavernsConfig].all (fun cfg =>
        cfg.sectionMapping.all (fun kv => (lookupNat cfg.sections kv.2).isSome)) = true)
    ∧ ∀ (cfg : TextConfig) (fa : Findall) (p : Page) (b : Bucket),
        extractImages cfg fa p = .ok b →
        b.all (fun kv => kv.2.isEmpty || (lookupNat cfg.sections kv.1).isSome) = true := by
  constructor
  · decide
  · intro cfg fa p b h
    exact extractLoop_OK cfg fa p.tombName _ _ _ h (initBucket_OK cfg)

theorem config_consistency_c8_witness :
    extractImages amduatConfig faFourth pageKV9 =
      .ok
        [ (1, []), (2, []), (3, [])
        , (4, [("https://thebanmappingproject.com/sites/default/files/kv9/fig1.jpg",
                "Imydwat, fourth hour guardians", "KV9")])
        , (5, []), (6, []), (7, []), (8, [])
        , (9, []), (10, []), (11, []), (12, []) ]
    ∧ ([ (1, ([] : List Entry)), (2, []), (3, [])
       , (4, [("https://thebanmappingproject.com/sites/default/files/kv9/fig1.jpg",
               "Imydwat, fourth hour guardians", "KV9")])
       , (5, []), (6, []), (7, []), (8, [])
       , (9, []), (10, []), (11, []), (12, []) ].all
          (fun kv => kv.2.isEmpty || (lookupNat amduatConfig.sections kv.1).isSome) = true) := by
  have hx : extractImages amduatConfig faFourth pageKV9 =
      .ok
        [ (1, []), (2, []), (3, [])
        , (4, [("https://thebanmappingproject.com/sites/default/files/kv9/fig1.jpg",
                "Imydwat, fourth hour guardians", "KV9")])
        , (5, []), (6, []), (7, []), (8, [])
        , (9, []), (10, []), (11, []), (12, []) ] := by decide
  exact ⟨hx, config_consistency_c8.2 amduatConfig faFourth pageKV9 _ hx⟩

/-- Claim C9: when the tomb-listing fetch returns a non-success status,
`get_tombs_list` returns the empty list and the whole run completes with
zero downloads, reporting a summary of 0 images. -/
theorem listing_failure_zero_c9 (cfg : TextConfig) (fa : Findall)
    (fetch : String → Except String (Nat × Page)) (download : String → Bool)
    (st : Nat) (hrefs : List String) (h : st ≠ 200) :
    getTombsList (st, hrefs) = []
    ∧ scrapeRun cfg fa (st, hrefs) fetch download =
        .ok (0, "\nScraping complete! Downloaded 0 images") := by
  have hl : getTombsList (st, hrefs) = [] := by simp [getTombsList, h]
  refine ⟨hl, ?_⟩
  unfold scrapeRun
  rw [hl]
  simp only [scrapeLoop, downloadPhase_initG]
  rfl

theorem listing_failure_zero_c9_witness :
    getTombsList (503, ["/tombs/kv-9"]) = []
    ∧ scrapeRun amduatConfig faNull (503, ["/tombs/kv-9"]) fetch404 downloadTrue =
        .ok (0, "\nScraping complete! Downloaded 0 images") :=
  listing_failure_zero_c9 amduatConfig faNull fetch404 downloadTrue 503 ["/tombs/kv-9"]
    (by decide)

/-- Claim C10: the denylist is tested against the raw, pre-normalization
source string: an image denylisted there is dismissed even when its
normalized form is clean, and the variant rewrite is never reached for it;
the source `/styles/icon/public/foo.jpg` is such a case. -/
theorem raw_denylist_wins_c10 (cfg : TextConfig) (fa : Findall) (e : ImgEntry)
    (h : denylisted ((effectiveSrc e).getD "") = true) :
    processImg cfg fa e = .ok none
    ∧ denylisted "/styles/icon/public/foo.jpg" = true
    ∧ denylisted (rewriteSrc "/styles/icon/public/foo.jpg") = false
    ∧ rewriteSrc "/styles/icon/public/foo.jpg" = "/sites/default/files/foo.jpg" :=
  ⟨processImg_denylisted_eq cfg fa e h, by decide, by decide, by decide⟩

theorem raw_denylist_wins_c10_witness :
    processImg amduatConfig faFourth imgStylesIcon = .ok none
    ∧ denylisted "/styles/icon/public/foo.jpg" = true
    ∧ denylisted (rewriteSrc "/styles/icon/public/foo.jpg") = false
    ∧ rewriteSrc "/styles/icon/public/foo.jpg" = "/sites/default/files/foo.jpg" :=
  raw_denylist_wins_c10 amduatConfig faFourth imgStylesIcon (by decide)

/-! ## Variant-path normalization (claim C7) -/

lemma toList_mk (l : List Char) : (String.mk l).toList = l := rfl

lemma stripPref_append (p x : List Char) : stripPref p (p ++ x) = some x := by
  induction p with
  | nil => rfl
  | cons c p ih => simp [stripPref, ih]

lemma takeWhile_all {q : Char → Bool} (l : List Char) (h : ∀ c ∈ l, q c = true) :
    l.takeWhile q = l := by
  induction l with
  | nil => rfl
  | cons c l ih =>
    rw [List.takeWhile_cons, h c (List.mem_cons_self c l)]
    simp [ih (fun x hx => h x (List.mem_cons_of_mem c hx))]

lemma takeWhile_append_stop {q : Char → Bool} (v w : List Char)
    (hv : ∀ c ∈ v, q c = true) (hw : ∀ c, w.head? = some c → q c = false) :
    (v ++ w).takeWhile q = v ∧ (v ++ w).dropWhile q = w := by
  induction v with
  | nil =>
    cases w with
    | nil => exact ⟨rfl, rfl⟩
    | cons c w =>
      have hc := hw c rfl
      simp [List.takeWhile_cons, List.dropWhile_cons, hc]
  | cons c v ih =>
    have hc := hv c (List.mem_cons_self c v)
    have hih := ih (fun x hx => hv x (List.mem_cons_of_mem c hx))
    simp [List.takeWhile_cons, List.dropWhile_cons, hc, hih.1, hih.2]

lemma isPrefixOf_append_own (p x : List Char) : p.isPrefixOf (p ++ x) = true := by
  induction p with
  | nil => simp [List.isPrefixOf]
  | cons c p ih => simp [List.isPrefixOf, ih]

lemma containsSub_of_isPrefixOf (n : String) (l : List Char)
    (h : n.toList.isPrefixOf l = true) : containsSub n (String.mk l) = true := by
  unfold containsSub
  rw [toList_mk]
  exact List.any_eq_true.mpr ⟨l, (List.mem_tails l l).mpr List.suffix_rfl, h⟩

/-- At the start of `/styles/<v>/public/<rest>` the pattern matches with
group `<rest>` (greedy semantics; `<v>` nonempty without slashes, `<rest>`
nonempty without newlines). -/
lemma matchStylesAt_eq (v rest : List Char)
    (hv : v ≠ []) (hv2 : ∀ c ∈ v, (c == '/') = false)
    (hr : rest ≠ []) (hr2 : ∀ c ∈ rest, (c == '\n') = false) :
    matchStylesAt ("/styles/".toList ++ (v ++ ("/public/".toList ++ rest))) = some rest := by
  unfold matchStylesAt
  rw [stripPref_append]
  dsimp only
  have hhead : ("/public/".toList ++ rest).head? = some '/' := rfl
  have hsplit := takeWhile_append_stop (q := fun c => !(c == '/')) v ("/public/".toList ++ rest)
    (fun c hc => by simp [hv2 c hc])
    (fun c hc => by
      rw [hhead] at hc
      cases hc
      simp)
  rw [hsplit.1, hsplit.2, stripPref_append]
  have hvne : v.isEmpty = false := by simp [List.isEmpty_iff, hv]
  rw [hvne]
  dsimp only
  have hrw : rest.takeWhile (fun c => !(c == '\n')) = rest :=
    takeWhile_all rest (fun c hc => by simp [hr2 c hc])
  rw [hrw]
  have hrne : rest.isEmpty = false := by simp [List.isEmpty_iff, hr]
  rw [hrne]
  simp

lemma stylesSearch_of_matchAt (l g : List Char) (hne : l ≠ [])
    (h : matchStylesAt l = some g) : stylesSearch l = some g := by
  cases l with
  | nil => exact absurd rfl hne
  | cons c rest => simp [stylesSearch, h]

/-- Claim C7: an image source of the form `/styles/<variant>/public/<rest>`
is rewritten to `/sites/default/files/<rest>` before URL resolution, and in
particular `/styles/thumb/public/foo/bar.jpg` and
`/sites/default/files/foo/bar.jpg` resolve to the same canonical absolute
URL against the base URL. -/
theorem styles_normalization_c7 (v rest : List Char)
    (hv : v ≠ []) (hv2 : ∀ c ∈ v, (c == '/') = false)
    (hr : rest ≠ []) (hr2 : ∀ c ∈ rest, (c == '\n') = false) :
    rewriteSrc (String.mk ("/styles/".toList ++ (v ++ ("/public/".toList ++ rest)))) =
      String.mk ("/sites/default/files/".toList ++ rest)
    ∧ urljoinTMP (rewriteSrc "/styles/thumb/public/foo/bar.jpg") =
        urljoinTMP (rewriteSrc "/sites/default/files/foo/bar.jpg") := by
  constructor
  · have hcont := containsSub_of_isPrefixOf "/styles/"
      ("/styles/".toList ++ (v ++ ("/public/".toList ++ rest)))
      (isPrefixOf_append_own _ _)
    have hne : ("/styles/".toList ++ (v ++ ("/public/".toList ++ rest))) ≠ [] := by
      simp
    have hsearch := stylesSearch_of_matchAt _ rest hne (matchStylesAt_eq v rest hv hv2 hr hr2)
    simp only [rewriteSrc, toList_mk, hcont, hsearch, if_true]
  · decide

theorem styles_normalization_c7_witness :
    rewriteSrc (String.mk
        ("/styles/".toList ++ ("thumb".toList ++ ("/public/".toList ++ "foo/bar.jpg".toList)))) =
      String.mk ("/sites/default/files/".toList ++ "foo/bar.jpg".toList)
    ∧ urljoinTMP (rewriteSrc "/styles/thumb/public/foo/bar.jpg") =
        urljoinTMP (rewriteSrc "/sites/default/files/foo/bar.jpg") :=
  styles_normalization_c7 "thumb".toList "foo/bar.jpg".toList
    (by decide) (by decide) (by decide) (by decide)

/-! ## Run-wide deduplication (claim C5) -/

/-- Number of entries recorded under a given URL. -/
def countKey (u : String) (l : List Entry) : Nat :=
  l.countP (fun e => e.1 == u)

/-- Whether the run-wide bucket has the section key at all. -/
def hasSec (g : GBucket) (s : Nat) : Bool :=
  (g.find? (fun kv => kv.1 == s)).isSome

/-- The entry list the run-wide bucket holds for a section. -/
def sectionEntries (g : GBucket) (s : Nat) : List Entry :=
  match g.find? (fun kv => kv.1 == s) with
  | some kv => kv.2
  | none => []

/-- The detections one page bucket contributes to a section, in order. -/
def pageDets (pb : Bucket) (s : Nat) : List Entry :=
  ((pb.filter (fun kv => kv.1 == s)).map (fun kv => kv.2)).flatten

/-- The stream of detections for one section across a list of page
buckets, in merge order. -/
def pageStream (pbs : List Bucket) (s : Nat) : List Entry :=
  (pbs.map (fun pb => pageDets pb s)).flatten

/-- Lines 255-263 of `scrape_all_tombs`: the run-wide bucket after merging
the classifier output of every tomb page in order. -/
def mergeAll (cfg : TextConfig) (pbs : List Bucket) : GBucket :=
  pbs.foldl mergeBucket (initG cfg)

lemma sectionEntries_cons (kv : Nat × List Entry) (g : GBucket) (s : Nat) :
    sectionEntries (kv :: g) s =
      if (kv.1 == s) = true then kv.2 else sectionEntries g s := by
  by_cases h : (kv.1 == s) = true
  · simp [sectionEntries, List.find?_cons_of_pos, h]
  · rw [Bool.not_eq_true] at h
    simp [sectionEntries, List.find?_cons_of_neg, h]

lemma hasSec_cons (kv : Nat × List Entry) (g : GBucket) (s : Nat) :
    hasSec (kv :: g) s = ((kv.1 == s) || hasSec g s) := by
  by_cases h : (kv.1 == s) = true
  · simp [hasSec, List.find?_cons_of_pos, h]
  · rw [Bool.not_eq_true] at h
    simp [hasSec, List.find?_cons_of_neg, h]

lemma gAdd_cons (kv : Nat × List Entry) (g : GBucket) (k : Nat) (e : Entry) :
    gAdd (kv :: g) k e =
      (if (kv.1 == k) = true then (kv.1, addDet kv.2 e) else kv) :: gAdd g k e := rfl

lemma hasSec_gAdd (g : GBucket) (k : Nat) (e : Entry) (s : Nat) :
    hasSec (gAdd g k e) s = hasSec g s := by
  induction g with
  | nil => rfl
  | cons kv g ih =>
    rw [gAdd_cons]
    by_cases h : (kv.1 == k) = true
    · rw [if_pos h, hasSec_cons, hasSec_cons, ih]
    · rw [if_neg h, hasSec_cons, hasSec_cons, ih]

/-- Under a present section key, `gAdd` at key `k` appends via `addDet` to
section `k` and leaves other sections alone. -/
lemma sectionEntries_gAdd (g : GBucket) (k : Nat) (e : Entry) (s : Nat)
    (hs : hasSec g s = true) :
    sectionEntries (gAdd g k e) s =
      if (k == s) = true then addDet (sectionEntries g s) e
      else sectionEntries g s := by
  induction g with
  | nil => simp [hasSec] at hs
  | cons kv g ih =>
    rw [gAdd_cons]
    by_cases hks : (kv.1 == s) = true
    · have hks' : kv.1 = s := beq_iff_eq.mp hks
      by_cases hkk : (kv.1 == k) = true
      · have h1 : (k == s) = true := by
          rw [beq_iff_eq, ← beq_iff_eq.mp hkk]
          exact hks'
        rw [if_pos hkk, sectionEntries_cons, sectionEntries_cons]
        simp [hks, h1]
      · have h1 : (k == s) = false := by
          rw [beq_eq_false_iff_ne]
          intro hc
          exact hkk (beq_iff_eq.mpr (by rw [hks', hc]))
        rw [if_neg hkk, sectionEntries_cons, sectionEntries_cons]
        simp [hks, h1]
    · have hksf : (kv.1 == s) = false := Bool.not_eq_true _ |>.mp hks
      rw [hasSec_cons, hksf, Bool.false_or] at hs
      by_cases hkk : (kv.1 == k) = true
      · rw [if_pos hkk, sectionEntries_cons, sectionEntries_cons]
        simp [hksf, ih hs]
      · rw [if_neg hkk, sectionEntries_cons, sectionEntries_cons]
        simp [hksf, ih hs]

lemma hasSec_foldl_gAdd (k s : Nat) (es : List Entry) :
    ∀ g : GBucket, hasSec (es.foldl (fun a e => gAdd a k e) g) s = hasSec g s := by
  induction es with
  | nil => intro g; rfl
  | cons e es ih =>
    intro g
    rw [List.foldl_cons, ih (gAdd g k e), hasSec_gAdd]

/-- Folding one page section's entries into the run-wide bucket appends
them, deduplicated, to that section. -/
lemma sectionEntries_foldl_gAdd (k s : Nat) (es : List Entry) :
    ∀ g : GBucket, hasSec g s = true →
      sectionEntries (es.foldl (fun a e => gAdd a k e) g) s =
        if (k == s) = true then es.foldl addDet (sectionEntries g s)
        else sectionEntries g s := by
  induction es with
  | nil =>
    intro g _
    by_cases h : (k == s) = true <;> simp [h]
  | cons e es ih =>
    intro g hg
    rw [List.foldl_cons, ih (gAdd g k e) (by rw [hasSec_gAdd]; exact hg),
      sectionEntries_gAdd g k e s hg]
    by_cases h : (k == s) = true
    · simp [h]
    · simp [h]

lemma pageDets_cons (kv : Nat × List Entry) (pb : Bucket) (s : Nat) :
    pageDets (kv :: pb) s =
      (if (kv.1 == s) = true then kv.2 else []) ++ pageDets pb s := by
  by_cases h : (kv.1 == s) = true
  · simp [pageDets, List.filter_cons, h]
  · rw [Bool.not_eq_true] at h
    simp [pageDets, List.filter_cons, h]

lemma hasSec_mergeFold (s : Nat) (pb : Bucket) :
    ∀ g : GBucket,
      hasSec (pb.foldl (fun a kv => kv.2.foldl (fun a2 e => gAdd a2 kv.1 e) a) g) s =
        hasSec g s := by
  induction pb with
  | nil => intro g; rfl
  | cons kv pb ih =>
    intro g
    rw [List.foldl_cons]
    exact (ih _).trans (hasSec_foldl_gAdd kv.1 s kv.2 g)

lemma hasSec_mergeBucket (pb : Bucket) (s : Nat) (g : GBucket) :
    hasSec (mergeBucket g pb) s = hasSec g s :=
  hasSec_mergeFold s pb g

/-- Merging one page bucket appends its per-section detections to the
run-wide section list through `addDet`. -/
lemma sectionEntries_mergeFold (s : Nat) (pb : Bucket) :
    ∀ g : GBucket, hasSec g s = true →
      sectionEntries (pb.foldl (fun a kv => kv.2.foldl (fun a2 e => gAdd a2 kv.1 e) a) g) s =
        (pageDets pb s).foldl addDet (sectionEntries g s) := by
  induction pb with
  | nil => intro g _; rfl
  | cons kv pb ih =>
    intro g hg
    rw [List.foldl_cons,
      ih _ (by rw [hasSec_foldl_gAdd]; exact hg),
      sectionEntries_foldl_gAdd kv.1 s kv.2 g hg,
      pageDets_cons, List.foldl_append]
    by_cases h : (kv.1 == s) = true
    · simp [h]
    · simp [h]

lemma sectionEntries_mergeBucket (pb : Bucket) (s : Nat) (g : GBucket)
    (hg : hasSec g s = true) :
    sectionEntries (mergeBucket g pb) s =
      (pageDets pb s).foldl addDet (sectionEntries g s) :=
  sectionEntries_mergeFold s pb g hg

lemma sectionEntries_initG (cfg : TextConfig) (s : Nat) :
    sectionEntries (initG cfg) s = [] := by
  unfold sectionEntries initG
  cases hf : (cfg.sections.map (fun kv => (kv.1, ([] : List Entry)))).find?
      (fun kv => kv.1 == s) with
  | none => rfl
  | some kv =>
    have hm := List.mem_of_find?_eq_some hf
    rw [List.mem_map] at hm
    obtain ⟨kv0, -, rfl⟩ := hm
    rfl

lemma sectionEntries_mergeAll_aux (s : Nat) (pbs : List Bucket) :
    ∀ g : GBucket, hasSec g s = true →
      sectionEntries (pbs.foldl mergeBucket g) s =
        (pageStream pbs s).foldl addDet (sectionEntries g s) := by
  induction pbs with
  | nil => intro g _; rfl
  | cons pb pbs ih =>
    intro g hg
    rw [List.foldl_cons, ih _ (by rw [hasSec_mergeBucket]; exact hg),
      sectionEntries_mergeBucket pb s g hg]
    show _ = ((pageDets pb s ++ pageStream pbs s).foldl addDet (sectionEntries g s))
    rw [List.foldl_append]

/-- `find?` distributes over `addDet`-folding: the first recorded entry for
a URL is the first detection carrying it. -/
lemma find?_addDet_foldl (u : String) (dets : List Entry) :
    ∀ acc : List Entry,
      ((dets.foldl addDet acc).find? (fun e => e.1 == u)) =
        ((acc.find? (fun e => e.1 == u)).or (dets.find? (fun e => e.1 == u))) := by
  induction dets with
  | nil =>
    intro acc
    simp
  | cons d dets ih =>
    intro acc
    rw [List.foldl_cons, ih (addDet acc d)]
    unfold addDet
    by_cases hd : (d.1 == u) = true
    · have hdu : d.1 = u := beq_iff_eq.mp hd
      cases hacc : acc.find? (fun e => e.1 == u) with
      | some x =>
        have hany : acc.any (fun e => e.1 == d.1) = true := by
          refine List.any_eq_true.mpr ⟨x, List.mem_of_find?_eq_some hacc, ?_⟩
          have := List.find?_some hacc
          simpa [hdu] using this
        rw [if_pos hany, hacc]
        simp [List.find?_cons_of_pos, hd]
      | none =>
        have hany : acc.any (fun e => e.1 == d.1) = false := by
          rw [Bool.eq_false_iff]
          intro hc
          obtain ⟨x, hx, hpx⟩ := List.any_eq_true.mp hc
          have : (acc.find? (fun e => e.1 == u)).isSome :=
            List.find?_isSome.mpr ⟨x, hx, by simpa [hdu] using hpx⟩
          rw [hacc] at this
          exact absurd this (by simp)
        rw [Bool.eq_false_iff] at hany
        rw [if_neg hany, List.find?_append, hacc]
        simp [List.find?_cons_of_pos, hd]
    · have hdf : (d.1 == u) = false := Bool.not_eq_true _ |>.mp hd
      have hcons : (d :: dets).find? (fun e => e.1 == u) = dets.find? (fun e => e.1 == u) :=
        List.find?_cons_of_neg _ hd
      cases hany : acc.any (fun e => e.1 == d.1) with
      | true => simp [hcons]
      | false =>
        simp only [Bool.false_eq_true, if_false, hcons]
        rw [List.find?_append]
        have hone : ([d] : List Entry).find? (fun e => e.1 == u) = none := by
          simp [List.find?_cons, hdf]
        rw [hone]
        simp [Option.or_assoc]

/-- `addDet`-folding keeps at most one entry per URL: the count is one
exactly when some detection carried the URL. -/
lemma countKey_addDet_foldl (u : String) (dets : List Entry) :
    ∀ acc : List Entry, countKey u acc ≤ 1 →
      countKey u (dets.foldl addDet acc) =
        max (countKey u acc) (if dets.any (fun e => e.1 == u) = true then 1 else 0) := by
  induction dets with
  | nil =>
    intro acc _
    simp
  | cons d dets ih =>
    intro acc hacc
    rw [List.foldl_cons]
    by_cases hd : (d.1 == u) = true
    · have hdu : d.1 = u := beq_iff_eq.mp hd
      have hpred : (fun e : Entry => e.1 == d.1) = (fun e : Entry => e.1 == u) := by
        funext e; rw [hdu]
      cases hany : acc.any (fun e => e.1 == u) with
      | true =>
        have h1 : countKey u acc = 1 := by
          obtain ⟨x, hx, hpx⟩ := List.any_eq_true.mp hany
          have hpos : 0 < countKey u acc :=
            List.countP_pos_iff.mpr ⟨x, hx, hpx⟩
          exact Nat.le_antisymm hacc hpos
        have haddDet : addDet acc d = acc := by
          unfold addDet
          rw [hpred, if_pos hany]
        rw [haddDet, ih acc hacc, h1]
        simp only [List.any_cons, hd, Bool.true_or]
        cases hda : dets.any (fun e => e.1 == u) <;> simp
      | false =>
        have h0 : countKey u acc = 0 := by
          unfold countKey
          rw [List.countP_eq_zero]
          intro a ha hpa
          rw [Bool.eq_false_iff] at hany
          exact hany (List.any_eq_true.mpr ⟨a, ha, hpa⟩)
        have haddDet : addDet acc d = acc ++ [d] := by
          unfold addDet
          rw [hpred, hany]
          simp
        have hc1 : countKey u (acc ++ [d]) = 1 := by
          unfold countKey at h0 ⊢
          rw [List.countP_append, h0, List.countP_cons]
          simp [hd]
        rw [haddDet, ih (acc ++ [d]) (by rw [hc1]), hc1, h0]
        simp only [List.any_cons, hd, Bool.true_or]
        cases hda : dets.any (fun e => e.1 == u) <;> simp
    · have hdf : (d.1 == u) = false := Bool.not_eq_true _ |>.mp hd
      have hsame : countKey u (addDet acc d) = countKey u acc := by
        unfold addDet
        cases hany : acc.any (fun x => x.1 == d.1) with
        | true => simp
        | false => simp [countKey, List.countP_append, List.countP_cons, hdf]
      have hle : countKey u (addDet acc d) ≤ 1 := by rw [hsame]; exact hacc
      rw [ih (addDet acc d) hle, hsame, List.any_cons, hdf, Bool.false_or]

/-- Claim C5: for every section key and URL, the run-wide bucket built by
merging all page buckets holds exactly one entry for that URL when any
page detected it (and none otherwise), and that entry is the first
detection in merge order — the first-encountered caption and source
identifier win; later detections of the same URL in the same section are
dropped. -/
theorem dedup_first_wins_c5 (cfg : TextConfig) (pbs : List Bucket) (s : Nat) (u : String)
    (hs : (lookupNat cfg.sections s).isSome = true) :
    countKey u (sectionEntries (mergeAll cfg pbs) s) =
      (if (pageStream pbs s).any (fun e => e.1 == u) = true then 1 else 0)
    ∧ (sectionEntries (mergeAll cfg pbs) s).find? (fun e => e.1 == u) =
        (pageStream pbs s).find? (fun e => e.1 == u) := by
  have hsec : hasSec (initG cfg) s = true := by
    rw [hasSec, List.find?_isSome]
    have hfind : (cfg.sections.find? (fun kv => kv.1 == s)).isSome = true := by
      cases hf : cfg.sections.find? (fun kv => kv.1 == s) with
      | none => rw [lookupNat, hf] at hs; simp at hs
      | some kv => rfl
    rw [List.find?_isSome] at hfind
    obtain ⟨kv, hkv, hp⟩ := hfind
    exact ⟨(kv.1, []), List.mem_map.mpr ⟨kv, hkv, rfl⟩, hp⟩
  have hse : sectionEntries (mergeAll cfg pbs) s =
      (pageStream pbs s).foldl addDet [] := by
    rw [mergeAll, sectionEntries_mergeAll_aux s pbs (initG cfg) hsec,
      sectionEntries_initG]
  constructor
  · rw [hse, countKey_addDet_foldl u (pageStream pbs s) [] (by simp [countKey])]
    simp [countKey]
  · rw [hse, find?_addDet_foldl]
    simp

/-- The scenario-C witness detections: two tombs, same resolved URL in
section 2, different captions and tomb names. -/
def pbTombA : Bucket :=
  [(2, [("https://thebanmappingproject.com/sites/default/files/x.jpg", "caption one", "KV1")])]

def pbTombB : Bucket :=
  [(2, [("https://thebanmappingproject.com/sites/default/files/x.jpg", "caption two", "KV2")])]

theorem dedup_first_wins_c5_witness :
    countKey "https://thebanmappingproject.com/sites/default/files/x.jpg"
        (sectionEntries (mergeAll amduatConfig [pbTombA, pbTombB]) 2) =
      (if (pageStream [pbTombA, pbTombB] 2).any
          (fun e => e.1 == "https://thebanmappingproject.com/sites/default/files/x.jpg") = true
        then 1 else 0)
    ∧ (sectionEntries (mergeAll amduatConfig [pbTombA, pbTombB]) 2).find?
        (fun e => e.1 == "https://thebanmappingproject.com/sites/default/files/x.jpg") =
      (pageStream [pbTombA, pbTombB] 2).find?
        (fun e => e.1 == "https://thebanmappingproject.com/sites/default/files/x.jpg") :=
  dedup_first_wins_c5 amduatConfig [pbTombA, pbTombB] 2
    "https://thebanmappingproject.com/sites/default/files/x.jpg" (by decide)

/-! ## Filename sanitization (claim C6) -/

/-- Every character of a collapsed list is the replacement or a kept
character of the input that fails the collapsing predicate. -/
lemma mem_collapseAux {p : Char → Bool} {r : Char} :
    ∀ (l : List Char) (b : Bool) (c : Char), c ∈ collapseAux p r b l →
      c = r ∨ (c ∈ l ∧ p c = false) := by
  intro l
  induction l with
  | nil => intro b c hc; simp [collapseAux] at hc
  | cons a l ih =>
    intro b c hc
    rw [collapseAux] at hc
    by_cases hpa : p a = true
    · rw [if_pos hpa] at hc
      cases b with
      | true =>
        rw [if_pos rfl] at hc
        rcases ih true c hc with h | h
        · exact Or.inl h
        · exact Or.inr ⟨List.mem_cons_of_mem a h.1, h.2⟩
      | false =>
        rw [if_neg (by simp)] at hc
        rcases List.mem_cons.mp hc with h | h
        · exact Or.inl h
        · rcases ih true c h with h2 | h2
          · exact Or.inl h2
          · exact Or.inr ⟨List.mem_cons_of_mem a h2.1, h2.2⟩
    · rw [if_neg hpa] at hc
      rcases List.mem_cons.mp hc with h | h
      · subst h
        exact Or.inr ⟨List.mem_cons_self c l, Bool.not_eq_true _ |>.mp hpa⟩
      · rcases ih false c h with h2 | h2
        · exact Or.inl h2
        · exact Or.inr ⟨List.mem_cons_of_mem a h2.1, h2.2⟩

/-- The first character of a list, for tracking underscore adjacency. -/
def headNotUS : List Char → Bool
  | [] => true
  | c :: _ => !(c == '_')

lemma noDoubleUS_cons_of_head (c : Char) (X : List Char)
    (hX : noDoubleUS X = true)
    (h : (c == '_') = false ∨ headNotUS X = true) :
    noDoubleUS (c :: X) = true := by
  cases X with
  | nil => rfl
  | cons x xs =>
    rw [noDoubleUS, hX, Bool.and_true]
    rcases h with h | h
    · simp [h]
    · rw [headNotUS, Bool.not_eq_true'] at h
      simp [h]

/-- Collapsing underscore runs leaves no two adjacent underscores, and
inside a run nothing further begins with an underscore. -/
lemma noDoubleUS_collapseAux_us :
    ∀ (l : List Char) (b : Bool),
      noDoubleUS (collapseAux (fun c => c == '_') '_' b l) = true
      ∧ (b = true → headNotUS (collapseAux (fun c => c == '_') '_' b l) = true) := by
  intro l
  induction l with
  | nil => intro b; exact ⟨rfl, fun _ => rfl⟩
  | cons a l ih =>
    intro b
    by_cases ha : (a == '_') = true
    · cases b with
      | true =>
        rw [collapseAux, if_pos ha, if_pos rfl]
        exact ih true
      | false =>
        rw [collapseAux, if_pos ha, if_neg (by simp : ¬false = true)]
        constructor
        · exact noDoubleUS_cons_of_head '_' _ (ih true).1 (Or.inr ((ih true).2 rfl))
        · intro hb; cases hb
    · have haf : (a == '_') = false := Bool.not_eq_true _ |>.mp ha
      rw [collapseAux, if_neg ha]
      constructor
      · exact noDoubleUS_cons_of_head a _ (ih false).1 (Or.inl haf)
      · intro _
        rw [headNotUS, haf]
        rfl

lemma noDoubleUS_tail (c : Char) (l : List Char) (h : noDoubleUS (c :: l) = true) :
    noDoubleUS l = true := by
  cases l with
  | nil => rfl
  | cons x xs =>
    rw [noDoubleUS] at h
    exact (Bool.and_eq_true _ _ |>.mp h).2

lemma noDoubleUS_dropWhile (q : Char → Bool) :
    ∀ l : List Char, noDoubleUS l = true → noDoubleUS (l.dropWhile q) = true := by
  intro l
  induction l with
  | nil => intro h; exact h
  | cons c l ih =>
    intro h
    rw [List.dropWhile_cons]
    by_cases hq : q c = true
    · rw [if_pos hq]; exact ih (noDoubleUS_tail c l h)
    · rw [if_neg hq]; exact h

lemma dropEndWhile_head (p : Char → Bool) (l : List Char) :
    dropEndWhile p l = [] ∨ (dropEndWhile p l).head? = l.head? := by
  cases l with
  | nil => exact Or.inl rfl
  | cons c rest =>
    rw [dropEndWhile]
    by_cases hc : ((dropEndWhile p rest).isEmpty && p c) = true
    · rw [if_pos hc]; exact Or.inl rfl
    · rw [if_neg hc]; exact Or.inr rfl

lemma noDoubleUS_dropEndWhile (p : Char → Bool) :
    ∀ l : List Char, noDoubleUS l = true → noDoubleUS (dropEndWhile p l) = true := by
  intro l
  induction l with
  | nil => intro h; exact h
  | cons c rest ih =>
    intro h
    rw [dropEndWhile]
    by_cases hc : ((dropEndWhile p rest).isEmpty && p c) = true
    · rw [if_pos hc]; rfl
    · rw [if_neg hc]
      have hX := ih (noDoubleUS_tail c rest h)
      cases hXl : dropEndWhile p rest with
      | nil => rfl
      | cons x xs =>
        rcases dropEndWhile_head p rest with h0 | h0
        · rw [hXl] at h0; cases h0
        · rw [hXl] at h0
          cases rest with
          | nil => simp at h0
          | cons y ys =>
            have hxy : x = y := by
              simp only [List.head?_cons, Option.some.injEq] at h0
              exact h0
            rw [noDoubleUS]
            rw [hXl] at hX
            rw [hX, Bool.and_true]
            rw [noDoubleUS] at h
            have hpair := (Bool.and_eq_true _ _ |>.mp h).1
            rw [hxy]
            exact hpair

lemma noDoubleUS_take :
    ∀ (l : List Char) (n : Nat), noDoubleUS l = true → noDoubleUS (l.take n) = true := by
  intro l
  induction l with
  | nil => intro n h; simpa using h
  | cons c rest ih =>
    intro n h
    cases n with
    | zero => rfl
    | succ m =>
      rw [List.take_succ_cons]
      cases rest with
      | nil => simp [noDoubleUS]
      | cons y ys =>
        cases m with
        | zero => rfl
        | succ k =>
          have htail := ih (k + 1) (noDoubleUS_tail c (y :: ys) h)
          rw [List.take_succ_cons] at htail ⊢
          rw [noDoubleUS, htail, Bool.and_true]
          rw [noDoubleUS] at h
          exact (Bool.and_eq_true _ _ |>.mp h).1

lemma dropEndWhile_subset (p : Char → Bool) :
    ∀ l : List Char, ∀ c ∈ dropEndWhile p l, c ∈ l := by
  intro l
  induction l with
  | nil => intro c hc; exact hc
  | cons a rest ih =>
    intro c hc
    rw [dropEndWhile] at hc
    by_cases h : ((dropEndWhile p rest).isEmpty && p a) = true
    · rw [if_pos h] at hc; simp at hc
    · rw [if_neg h] at hc
      rcases List.mem_cons.mp hc with h2 | h2
      · exact h2 ▸ List.mem_cons_self a rest
      · exact List.mem_cons_of_mem a (ih c h2)

/-- If every input character satisfies the collapsing predicate, the
collapse is empty (inside a run) or the single replacement character. -/
lemma collapseAux_all (p : Char → Bool) (r : Char) :
    ∀ l : List Char, (∀ c ∈ l, p c = true) →
      collapseAux p r true l = []
      ∧ collapseAux p r false l = (if l.isEmpty then [] else [r]) := by
  intro l
  induction l with
  | nil => intro _; exact ⟨rfl, rfl⟩
  | cons a rest ih =>
    intro h
    have hpa := h a (List.mem_cons_self a rest)
    have ihr := ih (fun c hc => h c (List.mem_cons_of_mem a hc))
    constructor
    · rw [collapseAux, if_pos hpa, if_pos rfl]
      exact ihr.1
    · rw [collapseAux, if_pos hpa, if_neg (by simp : ¬false = true)]
      rw [ihr.1]
      simp

/-- `collapseRuns` of an all-collapsible list is empty or one replacement
character. -/
lemma collapseRuns_all (p : Char → Bool) (r : Char) (l : List Char)
    (h : ∀ c ∈ l, p c = true) :
    collapseRuns p r l = (if l.isEmpty then [] else [r]) :=
  (collapseAux_all p r l h).2

lemma pySpace_not_invalid (c : Char) (h : pySpace c = true) :
    invalidFileChar c = false := by
  rw [pySpace] at h
  simp only [Bool.or_eq_true, beq_iff_eq] at h
  rcases h with ((((rfl | rfl) | rfl) | rfl) | rfl) | rfl <;> decide

/-- Characters surviving the two collapse stages are underscores or input
characters that are neither whitespace nor from the unsafe class. -/
lemma sanitizeCore_chars (l : List Char) :
    ∀ c ∈ sanitizeCore l, invalidFileChar c = false ∧ pySpace c = false := by
  intro c hc
  unfold sanitizeCore stripChars at hc
  have hc3 := (List.dropWhile_suffix (fun c => c == '_')).sublist.subset
    (dropEndWhile_subset _ _ c hc)
  rcases mem_collapseAux _ false c hc3 with rfl | ⟨hc2, -⟩
  · exact ⟨by decide, by decide⟩
  · rcases mem_collapseAux _ false c hc2 with rfl | ⟨hc1, hns⟩
    · exact ⟨by decide, by decide⟩
    · rw [List.mem_map] at hc1
      obtain ⟨c0, -, hc0⟩ := hc1
      refine ⟨?_, hns⟩
      by_cases hi : invalidFileChar c0 = true
      · rw [if_pos hi] at hc0; rw [← hc0]; decide
      · rw [if_neg hi] at hc0; rw [← hc0]; exact Bool.not_eq_true _ |>.mp hi

lemma sanitizeCore_noDouble (l : List Char) : noDoubleUS (sanitizeCore l) = true := by
  unfold sanitizeCore stripChars
  exact noDoubleUS_dropEndWhile _ _
    (noDoubleUS_dropWhile _ _ (noDoubleUS_collapseAux_us _ false).1)

lemma sanitizeTrunc_subset (l : List Char) : ∀ c ∈ sanitizeTrunc l, c ∈ l := by
  intro c hc
  unfold sanitizeTrunc at hc
  by_cases h : l.length > 100
  · rw [if_pos h] at hc; exact List.take_subset _ _ hc
  · rw [if_neg h] at hc; exact hc

lemma sanitizeTrunc_noDouble (l : List Char) (h : noDoubleUS l = true) :
    noDoubleUS (sanitizeTrunc l) = true := by
  unfold sanitizeTrunc
  by_cases hl : l.length > 100
  · rw [if_pos hl]; exact noDoubleUS_take l 100 h
  · rw [if_neg hl]; exact h

lemma sanitizeTrunc_len (l : List Char) : (sanitizeTrunc l).length ≤ 100 := by
  unfold sanitizeTrunc
  by_cases hl : l.length > 100
  · rw [if_pos hl]
    simp [List.length_take]
  · rw [if_neg hl]
    exact Nat.le_of_not_lt hl

lemma length_mk (l : List Char) : (String.mk l).length = l.length := rfl

/-- Claim C6: for every input, `sanitize_filename` returns a string with
none of the characters of the unsafe class, no whitespace, no run of more
than one consecutive underscore, of length at most 100; and every input
consisting only of unsafe characters and whitespace sanitizes to the
literal `"unnamed"`. -/
theorem sanitize_filename_c6 :
    (∀ t : String,
      ((sanitizeFilename t).toList.all
          (fun c => !(invalidFileChar c) && !(pySpace c))) = true
      ∧ noDoubleUS (sanitizeFilename t).toList = true
      ∧ (sanitizeFilename t).length ≤ 100)
    ∧ ∀ t : String,
        (t.toList.all (fun c => invalidFileChar c || pySpace c)) = true →
        sanitizeFilename t = "unnamed" := by
  constructor
  · intro t
    unfold sanitizeFilename
    by_cases he : (sanitizeTrunc (sanitizeCore t.toList)).isEmpty = true
    · rw [if_pos he]
      exact ⟨by decide, by decide, by decide⟩
    · rw [if_neg he]
      refine ⟨?_, ?_, ?_⟩
      · rw [toList_mk, List.all_eq_true]
        intro c hc
        obtain ⟨h1, h2⟩ := sanitizeCore_chars t.toList c (sanitizeTrunc_subset _ c hc)
        simp [h1, h2]
      · rw [toList_mk]
        exact sanitizeTrunc_noDouble _ (sanitizeCore_noDouble t.toList)
      · rw [length_mk]
        exact sanitizeTrunc_len _
  · intro t ht
    have h12 : ∀ c ∈ collapseRuns pySpace '_'
        (t.toList.map (fun c => if invalidFileChar c then '_' else c)),
        ((fun c => c == '_') c) = true := by
      intro c hc
      rcases mem_collapseAux _ false c hc with rfl | ⟨hc1, hns⟩
      · simp
      · rw [List.mem_map] at hc1
        obtain ⟨c0, hc0mem, hc0⟩ := hc1
        have hor := List.all_eq_true.mp ht c0 hc0mem
        by_cases hi : invalidFileChar c0 = true
        · rw [if_pos hi] at hc0; rw [← hc0]; simp
        · rw [if_neg hi] at hc0
          rw [Bool.or_eq_true] at hor
          rcases hor with h | h
          · exact absurd h hi
          · rw [← hc0] at hns
            rw [hns] at h
            cases h
    have hcore : sanitizeCore t.toList = [] := by
      unfold sanitizeCore
      rw [collapseRuns_all (fun c => c == '_') '_' _ h12]
      by_cases he : (collapseRuns pySpace '_'
          (t.toList.map (fun c => if invalidFileChar c then '_' else c))).isEmpty = true
      · rw [if_pos he]; rfl
      · rw [if_neg he]; rfl
    unfold sanitizeFilename
    rw [hcore]
    rfl

/-- The all-invalid witness input, unsafe characters and whitespace only. -/
def allInvalidInput : String := "<>:\"/\\|?* \t "

theorem sanitize_filename_c6_witness :
    (allInvalidInput.toList.all (fun c => invalidFileChar c || pySpace c)) = true
    ∧ sanitizeFilename allInvalidInput = "unnamed" :=
  ⟨by decide, sanitize_filename_c6.2 allInvalidInput (by decide)⟩

end AmduatScraper
